import Mathlib

/-!
Verification development for the Protenix batch-inference pipeline
(`runner/batch_inference.py`): job synthesis from protein MSA results and
ligand files, the per-job alignment (MSA) gate, the fault-isolated batch
executor, and the standalone `msa` command.

The Python source is shallowly embedded: dictionaries become association
lists, file-system contents become explicit parameters, exceptions become
`Except`/`Option` results, and the external collaborators (rdkit record
enumeration, `lig_file_to_atom_info` validation, `msa_search`,
`infer_predict`) become oracle parameters describing their observable
outcomes.
-/

namespace BatchInference

/-! ### Python string primitives -/

/-- Python `s.endswith(suffix)`, on the character lists of the strings. -/
def pyEndsWith (s suffix : String) : Bool :=
  suffix.data.isSuffixOf s.data

/-- The characters after the last occurrence of `c` (all of `l` when `c`
is absent): the character-level content of `os.path.basename` for `c = '/'`. -/
def afterLastChar (c : Char) (l : List Char) : List Char :=
  ((l.reverse.takeWhile (fun x => x ≠ c)).reverse)

/-- Python `os.path.basename(p)`: the part of the path after the last slash. -/
def pyBasename (p : String) : String :=
  String.mk (afterLastChar '/' p.data)

/-- Python `s.split(".")[0]`: the prefix of `s` before the first dot
(`s` itself when it has no dot). -/
def pyStemOfBase (s : String) : String :=
  String.mk (s.data.takeWhile (fun x => x ≠ '.'))

/-- `os.path.basename(li_file).split(".")[0]`, the ligand-name derivation
used throughout `generate_infer_jsons`. -/
def ligandNameOf (p : String) : String :=
  pyStemOfBase (pyBasename p)

/-- Python `smile.replace("\n", "")`: removing every newline character. -/
def stripNewlines (s : String) : String :=
  String.mk (s.data.filter (fun x => x ≠ '\n'))

/-- Lexicographic comparison of character lists by code point — the
order Python uses to compare strings. -/
def charsLt : List Char → List Char → Bool
  | [], [] => false
  | [], _ :: _ => true
  | _ :: _, [] => false
  | a :: as, b :: bs =>
    if a.toNat < b.toNat then true
    else if b.toNat < a.toNat then false
    else charsLt as bs

/-- Python `a < b` on strings. -/
def pyStrLt (a b : String) : Bool := charsLt a.data b.data

/-- Stable insertion of `x` into a sorted list: `x` goes before the first
element not below it, so equal elements keep their original order. -/
def insertSorted (x : String) : List String → List String
  | [] => [x]
  | y :: ys => if pyStrLt y x then y :: insertSorted x ys else x :: y :: ys

/-- Python `sorted` on strings: stable sort by the lexicographic order. -/
def pySorted : List String → List String
  | [] => []
  | x :: xs => insertSorted x (pySorted xs)

/-- Lookup in a Python dict built by inserting the pairs of `l` in order:
a later pair with the same key overwrites an earlier one, so the *last*
matching pair wins. -/
def pyDictLookup (l : List (String × String)) (k : String) : Option String :=
  l.foldl (fun acc kv => if kv.1 = k then some kv.2 else acc) none

/-- Python `d[k] = v` on a dict represented as its insertion-ordered pair
list: an existing key keeps its position and gets the new value, a new key
is appended. -/
def pyDictInsert (l : List (String × String)) (k v : String) :
    List (String × String) :=
  if l.any (fun kv => kv.1 = k) then
    l.map (fun kv => if kv.1 = k then (k, v) else kv)
  else l ++ [(k, v)]

/-! ### The job-descriptor JSON data model

A persisted job JSON is a list of records; each record has a `sequences`
list whose entries are either a `proteinChain` object
(`sequence`/`count`/`msa`) or a `ligand` object (`ligand`/`count`).
The `msa` value is a JSON object, modelled as its insertion-ordered list
of entries; `none` models the `msa` key being absent. -/

inductive ChainEntry where
  | protein (sequence : String) (count : Nat)
      (msa : Option (List (String × String)))
  | ligand (lig : String) (count : Nat)
deriving Repr, DecidableEq

/-- One top-level record of a job JSON: its `sequences` list. -/
def JsonRecord := List ChainEntry

/-- `has_msa` (batch_inference.py:53): a job JSON has MSA data iff for
every record, every `proteinChain` entry has an `msa` key with a non-empty
value. The source returns `False` at the first offending chain and `True`
otherwise. -/
def has_msa (records : List (List ChainEntry)) : Bool :=
  records.all (fun seqs =>
    seqs.all (fun e =>
      match e with
      | ChainEntry.protein _ _ msa =>
        match msa with
        | none => false
        | some m => decide (m.length ≠ 0)
      | ChainEntry.ligand _ _ => true))

/-- `update_msa_res` (batch_inference.py:70): overwrite the `msa` field of
every `proteinChain` entry with
`{"precomputed_msa_dir": protein_msa_res[sequence], "pairing_db": "uniref100"}`.
A sequence absent from `protein_msa_res` raises `KeyError` in Python,
modelled by `none` (the exception propagates out of the `msa` command, so
the partial in-place mutation preceding it is unobservable). -/
def update_msa_res (seqs : List ChainEntry)
    (protein_msa_res : List (String × String)) : Option (List ChainEntry) :=
  match seqs with
  | [] => some []
  | e :: rest =>
    match e with
    | ChainEntry.protein s cnt _ =>
      match pyDictLookup protein_msa_res s with
      | some dir =>
        (update_msa_res rest protein_msa_res).map
          (fun l => ChainEntry.protein s cnt
            (some [("precomputed_msa_dir", dir),
                   ("pairing_db", "uniref100")]) :: l)
      | none => none
    | ChainEntry.ligand lg c =>
      (update_msa_res rest protein_msa_res).map
        (fun l => ChainEntry.ligand lg c :: l)

/-! ### Ligand decomposition (`generate_infer_jsons`, first loop)

External collaborators are modelled as per-file observable outcomes:
`sdfRecordValid` holds the validity of each record that
`Chem.SDMolSupplier` enumerates, a record being *valid* when writing its
split and running `lig_file_to_atom_info` on it raises no exception;
`validAsSingle` says whether `lig_file_to_atom_info` on the file itself
succeeds; `rawLines` is the `readlines()` content (each line keeping its
trailing newline, as Python returns it). -/

structure FileData where
  sdfRecordValid : List Bool
  rawLines : List String
  validAsSingle : Bool
deriving Repr, DecidableEq

/-- An element of the source's `sdf_ligand_files` collection. The
single-record `.sdf` branch (line 146) and the multi-record split branch
(line 159) append a *list* of paths; the other-extension branch
(line 162) appends the path string itself, which the job-building loop
then iterates character by character. -/
inductive Group where
  | files (fs : List String)
  | raw (s : String)
deriving Repr, DecidableEq

/-- What Python iteration over a group element yields: the paths of a
list, or the one-character strings of a raw path string. -/
def groupIter : Group → List String
  | Group.files fs => fs
  | Group.raw s => s.data.map (fun c => String.mk [c])

/-- The split-file path `f"{sdf_basename}_part_{idx}.sdf"` where
`sdf_basename = os.path.join(current_local_dir, basename.split(".")[0])`
(modelled for a directory without trailing slash). -/
def partFilePath (dir base : String) (idx : Nat) : String :=
  dir ++ "/" ++ base ++ "_part_" ++ toString idx ++ ".sdf"

/-- The multi-record split loop (lines 151-158): each record is written to
its `_part_{idx}` file and immediately validated inside the *same* `try`
block that guards the whole file, so the first invalid record raises out
of the loop and no group is produced. Returns the accumulated part paths
when every record validates. -/
def splitRecords (dir base : String) : Nat → List Bool → Option (List String)
  | _, [] => some []
  | idx, v :: rest =>
    if v then
      (splitRecords dir base (idx + 1) rest).map
        (fun ps => partFilePath dir base idx :: ps)
    else none

/-- The three accumulators of the classification loop:
`invalid_ligand_files`, `sdf_ligand_files`, `smi_ligand_files` (the last
keeps the file's data alongside its path, since the second phase re-reads
the file's lines). -/
structure DecompState where
  invalid : List String
  sdfGroups : List Group
  smiFiles : List (String × FileData)
deriving Repr, DecidableEq

/-- One iteration of the `for li_file in ligand_files` loop
(lines 138-165): `.smi` files are deferred; `.sdf` files with at most one
record are validated in place; `.sdf` files with more records are split
and each split validated; any other extension is validated in place and
its *path string* appended (line 162). Any validation exception sends the
file to `invalid_ligand_files`. -/
def processLigandFile (dir : String) (st : DecompState)
    (f : String × FileData) : DecompState :=
  let (path, d) := f
  if pyEndsWith path ".smi" then
    { st with smiFiles := st.smiFiles ++ [(path, d)] }
  else if pyEndsWith path ".sdf" then
    if d.sdfRecordValid.length ≤ 1 then
      if d.validAsSingle then
        { st with sdfGroups := st.sdfGroups ++ [Group.files [path]] }
      else { st with invalid := st.invalid ++ [path] }
    else
      match splitRecords dir (ligandNameOf path) 0 d.sdfRecordValid with
      | some parts =>
        { st with sdfGroups := st.sdfGroups ++ [Group.files parts] }
      | none => { st with invalid := st.invalid ++ [path] }
  else
    if d.validAsSingle then
      { st with sdfGroups := st.sdfGroups ++ [Group.raw path] }
    else { st with invalid := st.invalid ++ [path] }

/-- The whole classification loop over the resolved ligand files. -/
def decomposeLigands (dir : String) (files : List (String × FileData)) :
    DecompState :=
  files.foldl (processLigandFile dir) ⟨[], [], []⟩

/-! ### Job synthesis (`generate_infer_jsons`, second and third loops) -/

/-- One value of the `protein_msa_res` dict: `count` is what
`value.get("count", 1)` evaluates to (1 when the key is absent), and
`entries` the dict's content stored verbatim as the chain's `msa` field. -/
structure MsaVal where
  count : Nat := 1
  entries : List (String × String)
deriving Repr, DecidableEq

/-- The `protein_chains` list built from `protein_msa_res` (lines 106-112):
one `proteinChain` entry per dict key, with the value stored as its `msa`. -/
def mkProteinChains (res : List (String × MsaVal)) : List ChainEntry :=
  res.map (fun kv => ChainEntry.protein kv.1 kv.2.count (some kv.2.entries))

/-- A synthesized job: the `sequences` list and `name` of the one object
in the persisted JSON. `name := none` models the Python `NameError` that
line 177 would raise were `ligand_name` never assigned (an empty group at
the start of the loop). -/
structure Job where
  sequences : List ChainEntry
  name : Option String
deriving Repr, DecidableEq

/-- The sdf-phase job loop (lines 168-183). `ligand_name` is a
function-scoped Python variable assigned inside the inner loop, so its
value *leaks* across outer iterations: a job's name is derived from the
last iterated item of its group, or inherited from the previous group when
its own group is empty. -/
def buildSdfJobs (pc : List ChainEntry) :
    List Group → Option String → List Job
  | [], _ => []
  | g :: gs, prev =>
    let items := groupIter g
    let nm := match items.getLast? with
      | some li => some (ligandNameOf li)
      | none => prev
    { sequences :=
        pc ++ items.map (fun li => ChainEntry.ligand ("FILE_" ++ li) 1),
      name := nm } :: buildSdfJobs pc gs nm

/-- The smi-phase job loop (lines 185-204): one job per `.smi` file, one
ligand chain per `readlines()` line with newlines removed, the name from
the file's basename. -/
def buildSmiJob (pc : List ChainEntry) (f : String × FileData) : Job :=
  { sequences :=
      pc ++ f.2.rawLines.map
        (fun l => ChainEntry.ligand (stripNewlines l) 1),
    name := some (ligandNameOf f.1) }

/-- `generate_infer_jsons` (lines 100-209) after input resolution: raises
when `protein_msa_res` is empty, otherwise classifies the resolved ligand
files and synthesizes one job per sdf-phase group followed by one job per
`.smi` file. -/
def generate_infer_jsons (res : List (String × MsaVal)) (dir : String)
    (files : List (String × FileData)) : Except String (List Job) :=
  if res.length = 0 then
    Except.error "invalid `protein_msa_res` data"
  else
    let pc := mkProteinChains res
    let st := decomposeLigands dir files
    Except.ok (buildSdfJobs pc st.sdfGroups none ++
      st.smiFiles.map (buildSmiJob pc))

/-- The input-resolution head of `generate_infer_jsons` (lines 113-124):
a directory's recursively collected regular files (error when there are
none), a single file as a one-element list, anything else an error. -/
inductive PathKind where
  | dir (files : List String)
  | file
  | invalid
deriving Repr, DecidableEq

def resolveLigandPath (path : String) (k : PathKind) :
    Except String (List String) :=
  match k with
  | PathKind.dir fs =>
    if fs.length = 0 then
      Except.error
        ("can not read a valid `sdf` or `smi` ligand_file in " ++ path)
    else Except.ok fs
  | PathKind.file => Except.ok [path]
  | PathKind.invalid =>
    Except.error ("can not read a special ligand_file: " ++ path)

/-- The input selection of `inference_jsons` (lines 242-254): resolve the
path exactly like `resolveLigandPath`, then keep only `.json` files. An
empty *filtered* list is not an error: line 256 just returns, so the call
silently does nothing. -/
def inferenceJsonsSelect (path : String) (k : PathKind) :
    Except String (List String) :=
  match k with
  | PathKind.dir fs =>
    if fs.length = 0 then
      Except.error
        ("can not read a valid `sdf` or `smi` ligand_file in " ++ path)
    else Except.ok (fs.filter (fun f => pyEndsWith f ".json"))
  | PathKind.file => Except.ok ([path].filter (fun f => pyEndsWith f ".json"))
  | PathKind.invalid =>
    Except.error ("can not read a special ligand_file: " ++ path)

/-! ### The batch executor (`batch_inference`, lines 290-332)

A job as the executor sees it: the path of its persisted JSON (the key of
`infer_errors`), whether that file exists on disk (`has_msa` raises when
it does not), its records, and the outcome of `infer_predict` on it
(`some msg` models the prediction collaborator raising `msg`). -/

structure JobSpec where
  path : String
  existsOnDisk : Bool
  records : List (List ChainEntry)
  predictOutcome : Option String
deriving Repr, DecidableEq

/-- The body of one iteration of the executor loop (lines 322-330):
`has_msa` raising on a missing file, the explicit `RuntimeError` when the
gate fails, or `infer_predict`'s outcome. `none` is success, `some e` the
message of the exception the `except` clause catches. -/
def runJob (j : JobSpec) : Option String :=
  if ¬ j.existsOnDisk then some ("`" ++ j.path ++ "` not exists.")
  else if ¬ has_msa j.records then
    some ("`" ++ j.path ++
      "` has no msa result for `proteinChain`, please add first.")
  else j.predictOutcome

/-- Observable events of one batch run: the construction of the shared
`InferenceRunner` (line 319) and the per-job loop iterations, each ending
in success or in a caught exception. -/
inductive BEvent where
  | constructRunner
  | jobOk (path : String)
  | jobErr (path : String)
deriving Repr, DecidableEq

/-- The per-job events of the executor loop, in submission order. -/
def jobEvents (jobs : List JobSpec) : List BEvent :=
  jobs.map (fun j =>
    match runJob j with
    | none => BEvent.jobOk j.path
    | some _ => BEvent.jobErr j.path)

/-- One loop iteration's effect on the `infer_errors` dict: a caught
exception inserts `(job path ↦ message)`, a success leaves it unchanged. -/
def batchStep (d : List (String × String)) (j : JobSpec) :
    List (String × String) :=
  match runJob j with
  | none => d
  | some e => pyDictInsert d j.path e

/-- The `infer_errors` dict at the end of the loop: one insertion per
caught exception, keyed by the job's JSON path. -/
def batchErrors (jobs : List JobSpec) : List (String × String) :=
  jobs.foldl batchStep []

/-- The event trace of `batch_inference` after job synthesis: when the job
list is empty the function returns at line 314 before constructing the
runner; otherwise the runner is constructed once (line 319) and then every
job is processed. -/
def batchTrace (jobs : List JobSpec) : List BEvent :=
  if jobs.length = 0 then []
  else BEvent.constructRunner :: jobEvents jobs

/-! ### The `msa` command, json branch (lines 456-482) and fasta branch
(lines 483-495)

The alignment-search collaborator `msa_search` is an oracle
`List String → List String`: the sub-directories it returns for the
submitted sequences. The source's consistency check after each search is
`assert len(msa_res_subdirs) == len(msa_res_subdirs)` — both sides are the
*result* list, so it never compares against the submitted count. -/

/-- The assert condition at lines 473 and 490, exactly as written:
`len(msa_res_subdirs) == len(msa_res_subdirs)`. -/
def msaSearchAssert (msa_res_subdirs : List String) : Bool :=
  msa_res_subdirs.length == msa_res_subdirs.length

/-- The `protein_seqs` collection of one record (lines 464-467): every
`proteinChain`'s sequence, in order, whether or not it already has MSA
data, duplicates kept. -/
def collectProteinSeqs (seqs : List ChainEntry) : List String :=
  seqs.filterMap (fun e =>
    match e with
    | ChainEntry.protein s _ _ => some s
    | ChainEntry.ligand _ _ => none)

/-- What one record submits to `msa_search` (lines 464-470): the collected
protein sequences, sorted — submitted only when non-empty. -/
def submittedSeqs (seqs : List ChainEntry) : List String :=
  let ps := collectProteinSeqs seqs
  if ps.length > 0 then pySorted ps else []

/-- One iteration of the json branch's per-record loop (lines 463-474):
collect and sort the protein sequences, search, run the (vacuous) assert,
and merge `dict(zip(protein_seqs, msa_res_subdirs))` back into every
protein chain. `none` models an uncaught Python exception
(`AssertionError` or `update_msa_res`'s `KeyError`). -/
def msaJsonStep (search : List String → List String)
    (seqs : List ChainEntry) : Option (List ChainEntry) :=
  let ps := collectProteinSeqs seqs
  if ps.length > 0 then
    let sortedSeqs := pySorted ps
    let subdirs := search sortedSeqs
    if msaSearchAssert subdirs then
      update_msa_res seqs (sortedSeqs.zip subdirs)
    else none
  else some seqs

/-- The json branch of the `msa` command: when the input already has MSA
data it is returned unchanged (line 459); otherwise every record is
enriched in turn. -/
def msaJson (search : List String → List String)
    (records : List (List ChainEntry)) : Option (List (List ChainEntry)) :=
  if has_msa records then some records
  else records.mapM (msaJsonStep search)

/-- The fasta branch of the `msa` command (lines 483-495): sort all record
sequences, search once, run the (vacuous) assert, and return
`dict(zip(protein_seqs, msa_res_subdirs))`. `none` models an
`AssertionError`. -/
def msaFasta (search : List String → List String)
    (fastaSeqs : List String) : Option (List (String × String)) :=
  let ps := pySorted fastaSeqs
  let subdirs := search ps
  if msaSearchAssert subdirs then some (ps.zip subdirs) else none

/-! ### Spec-side definitions (for refinement comparisons only)

These follow the specification's words, not the source, and exist solely
to be compared with the source-derived definitions above. -/

/-- Modelled from the spec (§4.4): the distinct sequences lacking
alignment data, deduplicated and sorted — what the spec says the
alignment-search collaborator receives. -/
def specLackingSeqs (seqs : List ChainEntry) : List String :=
  pySorted ((seqs.filterMap (fun e =>
    match e with
    | ChainEntry.protein s _ msa =>
      match msa with
      | none => some s
      | some m => if m.length = 0 then some s else none
    | ChainEntry.ligand _ _ => none)).dedup)

/-! ### Helper lemmas -/

lemma mem_insertSorted {y x : String} {l : List String} :
    y ∈ insertSorted x l ↔ y = x ∨ y ∈ l := by
  induction l with
  | nil => simp [insertSorted]
  | cons z zs ih =>
    by_cases h : pyStrLt z x = true
    · simp only [insertSorted, if_pos h, List.mem_cons, ih]
      tauto
    · simp only [insertSorted, if_neg h, List.mem_cons]

lemma mem_pySorted {x : String} {l : List String} :
    x ∈ pySorted l ↔ x ∈ l := by
  induction l with
  | nil => simp [pySorted]
  | cons z zs ih => simp [pySorted, mem_insertSorted, ih]

lemma pyDictInsert_of_fresh {l : List (String × String)} {k v : String}
    (h : ∀ kv ∈ l, kv.1 ≠ k) : pyDictInsert l k v = l ++ [(k, v)] := by
  have : l.any (fun kv => kv.1 = k) = false := by
    simp only [List.any_eq_false]
    intro kv hkv
    simpa using h kv hkv
  simp [pyDictInsert, this]

lemma pyDictLookup_foldl_of_no_key {l : List (String × String)} {k : String}
    (init : Option String) (h : ∀ kv ∈ l, kv.1 ≠ k) :
    l.foldl (fun acc kv => if kv.1 = k then some kv.2 else acc) init = init := by
  induction l generalizing init with
  | nil => rfl
  | cons kv rest ih =>
    simp only [List.foldl_cons]
    rw [if_neg (h kv (by simp))]
    exact ih init (fun kv' hkv' => h kv' (by simp [hkv']))

lemma pyDictLookup_middle {A B : List (String × String)} {k e : String}
    (hB : ∀ kv ∈ B, kv.1 ≠ k) :
    pyDictLookup (A ++ (k, e) :: B) k = some e := by
  unfold pyDictLookup
  rw [List.foldl_append, List.foldl_cons, if_pos rfl]
  exact pyDictLookup_foldl_of_no_key _ hB

lemma pyDictLookup_foldl_isSome {l : List (String × String)} {k : String}
    (init : Option String)
    (h : k ∈ l.map Prod.fst ∨ init.isSome = true) :
    (l.foldl (fun acc kv => if kv.1 = k then some kv.2 else acc) init).isSome
      = true := by
  induction l generalizing init with
  | nil =>
    rcases h with h | h
    · simp at h
    · simpa using h
  | cons kv rest ih =>
    simp only [List.foldl_cons]
    by_cases hk : kv.1 = k
    · exact ih (if kv.1 = k then some kv.2 else init) (Or.inr (by simp [hk]))
    · rcases h with h | h
      · rcases (by simpa using h : k = kv.1 ∨ k ∈ rest.map Prod.fst) with h' | h'
        · exact absurd h'.symm hk
        · exact ih _ (Or.inl h')
      · exact ih _ (Or.inr (by simp [hk, h]))

lemma pyDictLookup_isSome_of_mem {l : List (String × String)} {k : String}
    (h : k ∈ l.map Prod.fst) : ∃ v, pyDictLookup l k = some v := by
  have := @pyDictLookup_foldl_isSome l k none (Or.inl h)
  exact Option.isSome_iff_exists.mp this

lemma foldl_batchStep_of_ok {jobs : List JobSpec}
    (d : List (String × String)) (h : ∀ j ∈ jobs, runJob j = none) :
    jobs.foldl batchStep d = d := by
  induction jobs generalizing d with
  | nil => rfl
  | cons a l ih =>
    simp only [List.foldl_cons]
    rw [show batchStep d a = d from by simp [batchStep, h a (by simp)]]
    exact ih d (fun j hj => h j (by simp [hj]))

lemma foldl_batchStep_eq_filterMap {jobs : List JobSpec}
    (d : List (String × String))
    (hnd : (jobs.map JobSpec.path).Nodup)
    (hdk : ∀ j ∈ jobs, ∀ kv ∈ d, kv.1 ≠ j.path) :
    jobs.foldl batchStep d =
      d ++ jobs.filterMap (fun j => (runJob j).map (fun e => (j.path, e))) := by
  induction jobs generalizing d with
  | nil => simp
  | cons a l ih =>
    have hnd' : (l.map JobSpec.path).Nodup := (List.nodup_cons.mp hnd).2
    have ha : a.path ∉ l.map JobSpec.path := (List.nodup_cons.mp hnd).1
    simp only [List.foldl_cons]
    cases hr : runJob a with
    | none =>
      rw [show batchStep d a = d from by simp [batchStep, hr]]
      rw [ih d hnd' (fun j hj kv hkv => hdk j (by simp [hj]) kv hkv)]
      simp [hr]
    | some e =>
      rw [show batchStep d a = d ++ [(a.path, e)] from by
        simp only [batchStep, hr]
        exact pyDictInsert_of_fresh (fun kv hkv => hdk a (by simp) kv hkv)]
      rw [ih (d ++ [(a.path, e)]) hnd' ?_]
      · simp [hr]
      · intro j hj kv hkv
        rcases List.mem_append.mp hkv with h' | h'
        · exact hdk j (by simp [hj]) kv h'
        · have hkve : kv = (a.path, e) := by simpa using h'
          subst hkve
          intro hcontra
          have hc : a.path = j.path := hcontra
          exact ha (by
            rw [hc]
            exact List.mem_map.mpr ⟨j, hj, rfl⟩)

lemma batchErrors_eq_filterMap {jobs : List JobSpec}
    (hnd : (jobs.map JobSpec.path).Nodup) :
    batchErrors jobs =
      jobs.filterMap (fun j => (runJob j).map (fun e => (j.path, e))) := by
  have := @foldl_batchStep_eq_filterMap jobs [] hnd (by simp)
  simpa [batchErrors] using this

lemma splitRecords_of_mem_false {dir base : String} {l : List Bool}
    (idx : Nat) (h : false ∈ l) : splitRecords dir base idx l = none := by
  induction l generalizing idx with
  | nil => simp at h
  | cons b rest ih =>
    cases b with
    | false => simp [splitRecords]
    | true =>
      have : false ∈ rest := by simpa using h
      simp [splitRecords, ih (idx + 1) this]

lemma splitRecords_of_all_true {dir base : String} {l : List Bool}
    (idx : Nat) (h : ∀ b ∈ l, b = true) :
    splitRecords dir base idx l =
      some ((List.range l.length).map
        (fun i => partFilePath dir base (idx + i))) := by
  induction l generalizing idx with
  | nil => simp [splitRecords]
  | cons b rest ih =>
    have hb : b = true := h b (by simp)
    subst hb
    rw [splitRecords, if_pos rfl,
      ih (idx + 1) (fun b hb => h b (by simp [hb]))]
    simp only [Option.map_some', List.length_cons, List.range_succ_eq_map,
      List.map_cons, List.map_map, Option.some.injEq, List.cons.injEq,
      Nat.add_zero, true_and]
    apply List.map_congr_left
    intro i _
    simp only [Function.comp]
    congr 1
    omega

lemma update_msa_res_of_total {seqs : List ChainEntry}
    {m : List (String × String)}
    (h : ∀ e ∈ seqs, ∀ s cnt msa, e = ChainEntry.protein s cnt msa →
      ∃ d, pyDictLookup m s = some d) :
    update_msa_res seqs m = some (seqs.map (fun e =>
      match e with
      | ChainEntry.protein s cnt _ =>
        ChainEntry.protein s cnt (some
          [("precomputed_msa_dir", (pyDictLookup m s).getD ""),
           ("pairing_db", "uniref100")])
      | ChainEntry.ligand lg c => ChainEntry.ligand lg c)) := by
  induction seqs with
  | nil => simp [update_msa_res]
  | cons e rest ih =>
    have hrest := ih (fun e' he' s cnt msa hp => h e' (by simp [he']) s cnt msa hp)
    cases e with
    | protein s cnt msa =>
      obtain ⟨d, hd⟩ := h _ (by simp) s cnt msa rfl
      simp [update_msa_res, hd, hrest]
    | ligand lg c =>
      simp [update_msa_res, hrest]

lemma mem_collectProteinSeqs {seqs : List ChainEntry} {s : String}
    {cnt : Nat} {msa : Option (List (String × String))}
    (h : ChainEntry.protein s cnt msa ∈ seqs) :
    s ∈ collectProteinSeqs seqs := by
  unfold collectProteinSeqs
  exact List.mem_filterMap.mpr ⟨ChainEntry.protein s cnt msa, h, rfl⟩

lemma getLast?_map {α β : Type} (f : α → β) (l : List α) :
    (l.map f).getLast? = l.getLast?.map f := by
  induction l with
  | nil => rfl
  | cons a rest ih =>
    cases rest with
    | nil => rfl
    | cons b bs =>
      simpa [List.getLast?_cons_cons] using ih

/-! ### Claim theorems -/

/-- C2: the `msa` command's consistency check after an alignment search is
`assert len(msa_res_subdirs) == len(msa_res_subdirs)` (lines 473 and 490)
— it compares the result count with *itself*, never with the number of
submitted sequences. With two fasta sequences submitted and a search
backend returning a single result directory, the assert passes and the
fasta branch silently returns a truncated mapping that drops the second
sequence; in the json branch an under-return surfaces only incidentally as
a `KeyError` inside `update_msa_res`, not through the advertised check. -/
theorem C2_count_check_vacuous :
    msaSearchAssert [] = true
    ∧ msaFasta (fun _ => ["dir1"]) ["AA", "BB"] = some [("AA", "dir1")]
    ∧ msaJsonStep (fun _ => [])
        [ChainEntry.protein "AA" 1 none, ChainEntry.protein "BB" 1 none]
        = none := by
  refine ⟨rfl, ?_, ?_⟩ <;> decide

/-- C3, counterexample: `inference_jsons` on a directory that contains one
file with a non-matching extension does *not* fail — the emptiness check
(line 246) runs before the `.json` filter (line 254), so the selection is
`Except.ok []` and line 256 then returns silently with an empty report,
contradicting the claim that such input fails with `NoValidInputError`. -/
theorem C3_counterexample_silent_empty :
    inferenceJsonsSelect "d" (PathKind.dir ["a.txt"]) = Except.ok [] := by
  rfl

/-- C4: on the failing input of a single valid ligand file with an
extension other than `.sdf`/`.smi` (here `x.mol`) and one protein chain,
the job count still equals the group count (one), but the synthesized
job's chain list has 1 + 5 entries — one ligand chain per *character* of
the path, because line 162 appends the path string instead of a
one-element list — instead of the claimed 1 + 1 (group of size one). -/
theorem C4_chain_length_divergence :
    generate_infer_jsons [("SEQ", ⟨1, [("precomputed_msa_dir", "d1")]⟩)]
      "/tmp/D" [("x.mol", ⟨[], [], true⟩)]
    = Except.ok
        [{ sequences :=
            [ChainEntry.protein "SEQ" 1 (some [("precomputed_msa_dir", "d1")]),
             ChainEntry.ligand "FILE_x" 1, ChainEntry.ligand "FILE_." 1,
             ChainEntry.ligand "FILE_m" 1, ChainEntry.ligand "FILE_o" 1,
             ChainEntry.ligand "FILE_l" 1],
           name := some "l" }] := by
  rfl

/-- C5, counterexample: a `.sdf` file with three records of which the
middle one is malformed yields *no* surviving group — the whole file lands
in `invalid_ligand_files` and the synthesized job set is empty — because
the split files are validated inside the same `try` block that guards the
whole file, contradicting the claim that the two sibling splits survive
into the job set. -/
theorem C5_counterexample_whole_file_dropped :
    decomposeLigands "/tmp/D" [("m.sdf", ⟨[true, false, true], [], true⟩)]
      = ⟨["m.sdf"], [], []⟩
    ∧ generate_infer_jsons [("SEQ", ⟨1, [("a", "b")]⟩)] "/tmp/D"
        [("m.sdf", ⟨[true, false, true], [], true⟩)]
      = Except.ok [] := by
  exact ⟨rfl, rfl⟩

/-- C6, counterexample: a `.smi` file whose three lines include an empty
one produces *three* ligand records — the loop at lines 191-197 appends a
ligand chain for every `readlines()` line, with no non-empty filter — so
the job has an empty-string ligand chain, contradicting the claim that
empty lines produce no record. -/
theorem C6_counterexample_empty_line_record :
    generate_infer_jsons [("SEQ", ⟨1, [("a", "b")]⟩)] "/tmp/D"
      [("l.smi", ⟨[], ["CCO\n", "\n", "CC"], true⟩)]
    = Except.ok
        [{ sequences :=
            [ChainEntry.protein "SEQ" 1 (some [("a", "b")]),
             ChainEntry.ligand "CCO" 1, ChainEntry.ligand "" 1,
             ChainEntry.ligand "CC" 1],
           name := some "l" }] := by
  rfl

/-- C8, counterexample: for a record whose chain `"BB"` already carries
MSA data and whose chain `"AA"` lacks it (so the gate fails and the search
path runs), the list handed to the search collaborator is the sorted list
of *all* protein sequences, `["AA", "BB"]`, not the distinct lacking set
`["AA"]` the claim describes; a duplicated lacking sequence is likewise
submitted twice, not deduplicated. -/
theorem C8_counterexample_submits_all :
    has_msa [[ChainEntry.protein "BB" 1 (some [("x", "y")]),
              ChainEntry.protein "AA" 1 none]] = false
    ∧ submittedSeqs [ChainEntry.protein "BB" 1 (some [("x", "y")]),
        ChainEntry.protein "AA" 1 none] = ["AA", "BB"]
    ∧ specLackingSeqs [ChainEntry.protein "BB" 1 (some [("x", "y")]),
        ChainEntry.protein "AA" 1 none] = ["AA"]
    ∧ submittedSeqs [ChainEntry.protein "AA" 1 none,
        ChainEntry.protein "AA" 1 none] = ["AA", "AA"]
    ∧ specLackingSeqs [ChainEntry.protein "AA" 1 none,
        ChainEntry.protein "AA" 1 none] = ["AA"] := by
  refine ⟨rfl, ?_, ?_, ?_, ?_⟩ <;> decide

/-- C1: for every job list and every job in it whose gating or prediction
raises (`runJob j = some e`), the batch executor records the pair
`(job path ↦ message)` in `infer_errors`, still processes every other job
— the event list keeps one entry per job, in order, with the jobs after
the failing one unchanged — and the batch itself completes with a report
rather than raising (the model is a total function into the report). -/
theorem C1_per_job_fault_isolation
    (pre post : List JobSpec) (j : JobSpec) (e : String)
    (hnd : ((pre ++ j :: post).map JobSpec.path).Nodup)
    (hfail : runJob j = some e) :
    pyDictLookup (batchErrors (pre ++ j :: post)) j.path = some e
    ∧ jobEvents (pre ++ j :: post)
        = jobEvents pre ++ BEvent.jobErr j.path :: jobEvents post
    ∧ (jobEvents (pre ++ j :: post)).length = (pre ++ j :: post).length := by
  have hjp : j.path ∉ post.map JobSpec.path := by
    have h2 : ((j :: post).map JobSpec.path).Nodup := by
      rw [List.map_append] at hnd
      exact hnd.of_append_right
    exact (List.nodup_cons.mp h2).1
  refine ⟨?_, ?_, by simp [jobEvents]⟩
  · rw [batchErrors_eq_filterMap hnd]
    have hsplit : (pre ++ j :: post).filterMap
          (fun j' => (runJob j').map (fun e' => (j'.path, e')))
        = pre.filterMap (fun j' => (runJob j').map (fun e' => (j'.path, e')))
          ++ (j.path, e)
            :: post.filterMap (fun j' => (runJob j').map (fun e' => (j'.path, e'))) := by
      simp [List.filterMap_append, hfail]
    rw [hsplit]
    apply pyDictLookup_middle
    intro kv hkv
    obtain ⟨j', hj', hmap⟩ := List.mem_filterMap.mp hkv
    cases hr : runJob j' with
    | none => rw [hr] at hmap; simp at hmap
    | some e' =>
      rw [hr] at hmap
      simp only [Option.map_some', Option.some.injEq] at hmap
      subst hmap
      intro hc
      have hc' : j'.path = j.path := hc
      exact hjp (hc' ▸ List.mem_map.mpr ⟨j', hj', rfl⟩)
  · simp [jobEvents, hfail]

/-- Witness for C1 at a three-job batch whose middle job's prediction
raises `"boom"`: the failure map holds exactly that message under the
middle job's path, and the event list still has one entry per job. -/
theorem C1_witness :
    pyDictLookup (batchErrors
      [⟨"j1", true, [[ChainEntry.protein "S" 1 (some [("a", "b")])]], none⟩,
       ⟨"j2", true, [], some "boom"⟩,
       ⟨"j3", true, [], none⟩]) "j2" = some "boom"
    ∧ jobEvents
        [⟨"j1", true, [[ChainEntry.protein "S" 1 (some [("a", "b")])]], none⟩,
         ⟨"j2", true, [], some "boom"⟩,
         ⟨"j3", true, [], none⟩]
      = jobEvents [⟨"j1", true, [[ChainEntry.protein "S" 1 (some [("a", "b")])]], none⟩]
        ++ BEvent.jobErr "j2" :: jobEvents [⟨"j3", true, [], none⟩]
    ∧ (jobEvents
        [⟨"j1", true, [[ChainEntry.protein "S" 1 (some [("a", "b")])]], none⟩,
         ⟨"j2", true, [], some "boom"⟩,
         ⟨"j3", true, [], none⟩]).length = 3 := by
  exact C1_per_job_fault_isolation
    [⟨"j1", true, [[ChainEntry.protein "S" 1 (some [("a", "b")])]], none⟩]
    [⟨"j3", true, [], none⟩]
    ⟨"j2", true, [], some "boom"⟩ "boom" (by decide) (by decide)

/-- C7: a job passes the alignment gate (`has_msa`) iff every
`proteinChain` entry of every record carries an `msa` key with a non-empty
value; and in a batch whose other jobs all succeed, one job whose JSON
exists but fails the gate (search is not available in `batch_inference`)
produces exactly one failure entry whose message references that job's
path, while every other job still completes successfully; moreover the
failing job's result is independent of its prediction outcome — the raise
at line 325 happens before `infer_predict` is reached, so the prediction
collaborator is never invoked for it. -/
theorem C7_gate_iff_and_isolation
    (records : List (List ChainEntry))
    (pre post : List JobSpec) (j : JobSpec)
    (hok : ∀ j' ∈ pre ++ post, runJob j' = none)
    (hex : j.existsOnDisk = true)
    (hgate : has_msa j.records = false) :
    (has_msa records = true ↔ ∀ rec ∈ records, ∀ c ∈ rec, ∀ s cnt m,
        c = ChainEntry.protein s cnt m → ∃ l, m = some l ∧ l ≠ [])
    ∧ batchErrors (pre ++ j :: post)
        = [(j.path,
            "`" ++ j.path ++ "` has no msa result for `proteinChain`, please add first.")]
    ∧ jobEvents (pre ++ j :: post)
        = pre.map (fun j' => BEvent.jobOk j'.path)
          ++ BEvent.jobErr j.path :: post.map (fun j' => BEvent.jobOk j'.path)
    ∧ (∀ alt, runJob { j with predictOutcome := alt } = runJob j) := by
  have hrunj : runJob j
      = some ("`" ++ j.path ++ "` has no msa result for `proteinChain`, please add first.") := by
    simp [runJob, hex, hgate]
  refine ⟨?_, ?_, ?_, fun alt => by simp [runJob, hex, hgate]⟩
  · unfold has_msa
    simp only [List.all_eq_true]
    constructor
    · intro h rec hrec c hc s cnt m hcm
      have hcheck := h rec hrec c hc
      subst hcm
      cases m with
      | none => simp at hcheck
      | some l =>
        refine ⟨l, rfl, ?_⟩
        intro hl
        subst hl
        simp at hcheck
    · intro h rec hrec c hc
      cases c with
      | protein s cnt m =>
        obtain ⟨l, hm, hl⟩ := h rec hrec _ hc s cnt m rfl
        subst hm
        simpa using hl
      | ligand lg c => simp
  · unfold batchErrors
    rw [List.foldl_append,
      foldl_batchStep_of_ok [] (fun j' hj' => hok j' (by simp [hj'])),
      List.foldl_cons,
      show batchStep [] j
          = [(j.path,
              "`" ++ j.path ++ "` has no msa result for `proteinChain`, please add first.")] from by
        simp [batchStep, hrunj, pyDictInsert]]
    exact foldl_batchStep_of_ok _ (fun j' hj' => hok j' (by simp [hj']))
  · simp only [jobEvents, List.map_append, List.map_cons]
    congr 1
    · apply List.map_congr_left
      intro j' hj'
      simp [hok j' (by simp [hj'])]
    · congr 1
      · simp [hrunj]
      · apply List.map_congr_left
        intro j' hj'
        simp [hok j' (by simp [hj'])]

/-- Witness for C7 at a three-job batch whose middle job lacks MSA data:
exactly one failure entry, naming the middle job, and both neighbours
complete. -/
theorem C7_witness :
    batchErrors
      [⟨"jA", true, [[ChainEntry.protein "S" 1 (some [("a", "b")])]], none⟩,
       ⟨"jB", true, [[ChainEntry.protein "S" 1 none]], none⟩,
       ⟨"jC", true, [], none⟩]
      = [("jB", "`jB` has no msa result for `proteinChain`, please add first.")]
    ∧ jobEvents
        [⟨"jA", true, [[ChainEntry.protein "S" 1 (some [("a", "b")])]], none⟩,
         ⟨"jB", true, [[ChainEntry.protein "S" 1 none]], none⟩,
         ⟨"jC", true, [], none⟩]
      = [BEvent.jobOk "jA", BEvent.jobErr "jB", BEvent.jobOk "jC"] := by
  have h := C7_gate_iff_and_isolation []
    [⟨"jA", true, [[ChainEntry.protein "S" 1 (some [("a", "b")])]], none⟩]
    [⟨"jC", true, [], none⟩]
    ⟨"jB", true, [[ChainEntry.protein "S" 1 none]], none⟩
    (by decide) (by decide) (by decide)
  exact ⟨h.2.1, h.2.2.1⟩

/-- C3 (amended): only a directory containing no files at all makes
`inference_jsons` fail; a directory that does contain files yields the
`.json`-filtered selection with no error, even when that selection is
empty — in which case the call silently returns an empty report
(line 256) instead of raising. -/
theorem C3_amended_selection (path : String) (fs : List String) :
    (fs = [] → inferenceJsonsSelect path (PathKind.dir fs)
        = Except.error
            ("can not read a valid `sdf` or `smi` ligand_file in " ++ path))
    ∧ (fs ≠ [] → inferenceJsonsSelect path (PathKind.dir fs)
        = Except.ok (fs.filter (fun f => pyEndsWith f ".json"))) := by
  constructor
  · intro h
    subst h
    rfl
  · intro h
    have hlen : ¬ fs.length = 0 := by simpa using h
    simp [inferenceJsonsSelect, hlen]

/-- Witness for C3 (amended): the empty directory fails; a directory with
one `.json` and one `.txt` file selects just the `.json` file. -/
theorem C3_amended_witness :
    inferenceJsonsSelect "d" (PathKind.dir [])
      = Except.error "can not read a valid `sdf` or `smi` ligand_file in d"
    ∧ inferenceJsonsSelect "d" (PathKind.dir ["x.json", "y.txt"])
      = Except.ok ["x.json"] := by
  exact ⟨(C3_amended_selection "d" []).1 rfl,
    (C3_amended_selection "d" ["x.json", "y.txt"]).2 (by decide)⟩

lemma not_smi_of_sdf {s : String} (h : pyEndsWith s ".sdf" = true) :
    pyEndsWith s ".smi" = false := by
  by_contra hc
  have h2 : pyEndsWith s ".smi" = true := by simpa using hc
  unfold pyEndsWith at h h2
  have hs1 : ".sdf".data <:+ s.data := by simpa using h
  have hs2 : ".smi".data <:+ s.data := by simpa using h2
  rcases List.suffix_or_suffix_of_suffix hs1 hs2 with h' | h' <;>
    · obtain ⟨t, ht⟩ := h'
      have hlent : t.length = 0 := by
        have hle := congrArg List.length ht
        simp only [List.length_append, List.length_cons, List.length_nil] at hle
        omega
      rw [List.length_eq_zero.mp hlent] at ht
      simp only [List.nil_append] at ht
      exact absurd ht (by decide)

/-- C5 (amended): a multi-record `.sdf` file is split into part files
named `<basename>_part_<index>`, but the splits are validated inside the
single `try` block guarding the file: the first invalid record aborts the
whole file, which is excluded entirely — no sibling split survives — with
exactly one failure entry referencing that file; only when every record
validates do the splits form one surviving group. -/
theorem C5_amended_multi_record (dir path : String) (d : FileData)
    (hsdf : pyEndsWith path ".sdf" = true)
    (hmulti : 1 < d.sdfRecordValid.length) :
    (false ∈ d.sdfRecordValid →
      decomposeLigands dir [(path, d)] = ⟨[path], [], []⟩)
    ∧ ((∀ b ∈ d.sdfRecordValid, b = true) →
      decomposeLigands dir [(path, d)]
        = ⟨[], [Group.files ((List.range d.sdfRecordValid.length).map
            (fun i => partFilePath dir (ligandNameOf path) i))], []⟩) := by
  have hnsmi := not_smi_of_sdf hsdf
  have hnle : ¬ d.sdfRecordValid.length ≤ 1 := by omega
  constructor
  · intro hf
    simp [decomposeLigands, processLigandFile, hnsmi, hsdf, hnle,
      splitRecords_of_mem_false 0 hf]
  · intro hall
    simp [decomposeLigands, processLigandFile, hnsmi, hsdf, hnle,
      splitRecords_of_all_true 0 hall]

/-- Witness for C5 (amended): a two-record file with one bad record is
dropped whole with one failure entry; a two-record file with two good
records survives as one group of two part files. -/
theorem C5_amended_witness :
    decomposeLigands "/tmp/D" [("a.sdf", ⟨[true, false], [], true⟩)]
      = ⟨["a.sdf"], [], []⟩
    ∧ decomposeLigands "/tmp/D" [("b.sdf", ⟨[true, true], [], true⟩)]
      = ⟨[], [Group.files ["/tmp/D/b_part_0.sdf", "/tmp/D/b_part_1.sdf"]], []⟩ := by
  have h1 := (C5_amended_multi_record "/tmp/D" "a.sdf" ⟨[true, false], [], true⟩
    (by decide) (by decide)).1 (by decide)
  have h2 := (C5_amended_multi_record "/tmp/D" "b.sdf" ⟨[true, true], [], true⟩
    (by decide) (by decide)).2 (by decide)
  exact ⟨h1, h2⟩

/-- C6 (amended): a `.smi` file yields exactly one job whose ligand
chains are the file's `readlines()` lines in order — *every* line,
including empty ones, produces one record with its `smilesString` set to
the line stripped of newline characters — appended after the protein
chains, with the job's name derived from the file's basename. -/
theorem C6_amended_every_line (res : List (String × MsaVal)) (dir p : String)
    (d : FileData) (hres : res ≠ []) (hsmi : pyEndsWith p ".smi" = true) :
    generate_infer_jsons res dir [(p, d)]
      = Except.ok
          [{ sequences := mkProteinChains res
              ++ d.rawLines.map (fun l => ChainEntry.ligand (stripNewlines l) 1),
             name := some (ligandNameOf p) }] := by
  have hlen : ¬ res.length = 0 := by simpa using hres
  simp [generate_infer_jsons, hlen, decomposeLigands, processLigandFile, hsmi,
    buildSdfJobs, buildSmiJob]

/-- Witness for C6 (amended) at a two-line file whose second line is
empty: both lines yield ligand chains, the second one empty. -/
theorem C6_amended_witness :
    generate_infer_jsons [("S", ⟨1, [("k", "v")]⟩)] "/tmp/D"
      [("z.smi", ⟨[], ["O\n", "\n"], true⟩)]
      = Except.ok
          [{ sequences :=
              [ChainEntry.protein "S" 1 (some [("k", "v")]),
               ChainEntry.ligand "O" 1, ChainEntry.ligand "" 1],
             name := some "z" }] := by
  exact C6_amended_every_line [("S", ⟨1, [("k", "v")]⟩)] "/tmp/D" "z.smi"
    ⟨[], ["O\n", "\n"], true⟩ (by decide) (by decide)

/-- C8 (amended): when a record of the `msa` command's json input is
processed, the list submitted to the alignment-search collaborator — in a
single invocation per record — is the sorted list of *all* its protein
sequences, duplicates kept and already-aligned sequences included; and
when the collaborator returns one result per submitted sequence, the
returned references are merged back into *every* protein chain entry
sharing each sequence (overwriting any existing alignment data). -/
theorem C8_amended_submission (seqs : List ChainEntry)
    (search : List String → List String)
    (hne : collectProteinSeqs seqs ≠ [])
    (hlen : (search (pySorted (collectProteinSeqs seqs))).length
        = (pySorted (collectProteinSeqs seqs)).length) :
    submittedSeqs seqs = pySorted (collectProteinSeqs seqs)
    ∧ msaJsonStep search seqs = some (seqs.map (fun e =>
        match e with
        | ChainEntry.protein s cnt _ => ChainEntry.protein s cnt (some
            [("precomputed_msa_dir",
              (pyDictLookup ((pySorted (collectProteinSeqs seqs)).zip
                (search (pySorted (collectProteinSeqs seqs)))) s).getD ""),
             ("pairing_db", "uniref100")])
        | ChainEntry.ligand lg c => ChainEntry.ligand lg c)) := by
  have hpos : 0 < (collectProteinSeqs seqs).length := List.length_pos.mpr hne
  constructor
  · simp [submittedSeqs, hpos]
  · unfold msaJsonStep
    rw [if_pos hpos, if_pos (by simp [msaSearchAssert])]
    apply update_msa_res_of_total
    intro e he s cnt msa hp
    apply pyDictLookup_isSome_of_mem
    rw [List.map_fst_zip _ _ (le_of_eq hlen.symm)]
    exact mem_pySorted.mpr (mem_collectProteinSeqs (hp ▸ he))

/-- Witness for C8 (amended) at a record with an already-aligned chain
`"BB"` and an unaligned chain `"AA"`, with an identity search backend:
both sequences are submitted (sorted) and both chains — including the
already-aligned one — get the returned reference merged in. -/
theorem C8_amended_witness :
    submittedSeqs [ChainEntry.protein "BB" 1 (some [("x", "y")]),
        ChainEntry.protein "AA" 1 none]
      = pySorted (collectProteinSeqs
          [ChainEntry.protein "BB" 1 (some [("x", "y")]),
           ChainEntry.protein "AA" 1 none])
    ∧ msaJsonStep (fun l => l)
        [ChainEntry.protein "BB" 1 (some [("x", "y")]),
         ChainEntry.protein "AA" 1 none]
      = some
          [ChainEntry.protein "BB" 1 (some
              [("precomputed_msa_dir", "BB"), ("pairing_db", "uniref100")]),
           ChainEntry.protein "AA" 1 (some
              [("precomputed_msa_dir", "AA"), ("pairing_db", "uniref100")])] := by
  exact C8_amended_submission
    [ChainEntry.protein "BB" 1 (some [("x", "y")]),
     ChainEntry.protein "AA" 1 none]
    (fun l => l) (by decide) (by decide)

/-- C9: in every batch that reaches the executing phase (a non-empty job
list), the shared runner is constructed exactly once, as the very first
event, before any job is processed; no later event constructs it again,
and the one constructed context serves every job of the batch. -/
theorem C9_runner_constructed_once (jobs : List JobSpec) (h : jobs ≠ []) :
    batchTrace jobs = BEvent.constructRunner :: jobEvents jobs
    ∧ (batchTrace jobs).count BEvent.constructRunner = 1
    ∧ (∀ ev ∈ jobEvents jobs, ev ≠ BEvent.constructRunner)
    ∧ (jobEvents jobs).length = jobs.length := by
  have hlen : ¬ jobs.length = 0 := by simpa using h
  have htr : batchTrace jobs = BEvent.constructRunner :: jobEvents jobs := by
    simp [batchTrace, hlen]
  have hnc : ∀ ev ∈ jobEvents jobs, ev ≠ BEvent.constructRunner := by
    intro ev hev
    obtain ⟨j', hj', hmap⟩ := List.mem_map.mp hev
    cases hr : runJob j' with
    | none =>
      rw [hr] at hmap
      rw [← hmap]
      simp
    | some e =>
      rw [hr] at hmap
      rw [← hmap]
      simp
  refine ⟨htr, ?_, hnc, by simp [jobEvents]⟩
  rw [htr, List.count_cons_self,
    List.count_eq_zero.mpr (fun hmem => hnc _ hmem rfl)]

/-- Witness for C9 at a one-job batch. -/
theorem C9_witness :
    batchTrace [⟨"j1", true, [], none⟩]
      = BEvent.constructRunner :: jobEvents [⟨"j1", true, [], none⟩]
    ∧ (batchTrace [⟨"j1", true, [], none⟩]).count BEvent.constructRunner = 1 := by
  have h := C9_runner_constructed_once [⟨"j1", true, [], none⟩] (by decide)
  exact ⟨h.1, h.2.1⟩

/-- C10: a ligand file whose name ends in neither `.smi` nor `.sdf` and
whose single-record validation succeeds has its path *string* appended to
the group collection (line 162, unlike the `[li_file]` of line 146), so
the synthesized job carries one ligand chain per character of the path —
each with ligand field `"FILE_"` followed by that one character — and the
job's name is derived from the path's final character. -/
theorem C10_raw_path_iterated
    (res : List (String × MsaVal)) (dir p : String) (d : FileData) (c : Char)
    (hres : res ≠ [])
    (hnsmi : pyEndsWith p ".smi" = false)
    (hnsdf : pyEndsWith p ".sdf" = false)
    (hvalid : d.validAsSingle = true)
    (hlast : p.data.getLast? = some c) :
    (decomposeLigands dir [(p, d)]).sdfGroups = [Group.raw p]
    ∧ generate_infer_jsons res dir [(p, d)]
        = Except.ok
            [{ sequences := mkProteinChains res
                ++ p.data.map (fun ch =>
                    ChainEntry.ligand ("FILE_" ++ String.mk [ch]) 1),
               name := some (ligandNameOf (String.mk [c])) }] := by
  have hdec : decomposeLigands dir [(p, d)] = ⟨[], [Group.raw p], []⟩ := by
    simp [decomposeLigands, processLigandFile, hnsmi, hnsdf, hvalid]
  have hlen : ¬ res.length = 0 := by simpa using hres
  refine ⟨by rw [hdec], ?_⟩
  unfold generate_infer_jsons
  rw [if_neg hlen, hdec]
  simp only [buildSdfJobs, groupIter, List.map_nil, List.append_nil,
    getLast?_map, hlast, Option.map_some', List.map_map]
  rfl

/-- Witness for C10 at the file `lig7.mol2` with one protein chain: the
raw path becomes the group, each path character becomes a `FILE_<char>`
ligand chain, and the name is the final character `"2"`. -/
theorem C10_witness :
    (decomposeLigands "/tmp/D" [("lig7.mol2", ⟨[], [], true⟩)]).sdfGroups
      = [Group.raw "lig7.mol2"]
    ∧ generate_infer_jsons [("S", ⟨1, [("k", "v")]⟩)] "/tmp/D"
        [("lig7.mol2", ⟨[], [], true⟩)]
      = Except.ok
          [{ sequences :=
              [ChainEntry.protein "S" 1 (some [("k", "v")]),
               ChainEntry.ligand "FILE_l" 1, ChainEntry.ligand "FILE_i" 1,
               ChainEntry.ligand "FILE_g" 1, ChainEntry.ligand "FILE_7" 1,
               ChainEntry.ligand "FILE_." 1, ChainEntry.ligand "FILE_m" 1,
               ChainEntry.ligand "FILE_o" 1, ChainEntry.ligand "FILE_l" 1,
               ChainEntry.ligand "FILE_2" 1],
             name := some "2" }] := by
  exact C10_raw_path_iterated [("S", ⟨1, [("k", "v")]⟩)] "/tmp/D" "lig7.mol2"
    ⟨[], [], true⟩ '2' (by decide) (by decide) (by decide) (by decide) (by decide)

end BatchInference
